import Mathlib

/-!
# MTH5 hierarchical container engine — verification development

This file embeds the core of the MTH5 archive engine (hierarchical
Survey → Station → Run → Channel container, metadata consistency
propagation, derived channel summary index, run segmentation, schema
version gate) and proves the documented behavioural properties about the
embedding.  The repository itself ships only notebook drivers that call
the engine, so each definition is modelled from the design document's
description of the engine ("Modelled from the spec:" in its doc string).
-/

/-! ## Run segmentation (§4.4) -/

/-- Modelled from the spec: §4.4 run descriptor {start, end, record-range}.
The record range is a first index together with a record count; `stop` is
the spec's `end` field (a Lean keyword).  Times are integer timestamps. -/
structure RunDescriptor where
  start : Int
  stop : Int
  firstIdx : Nat
  count : Nat
deriving DecidableEq

/-- Modelled from the spec: §4.4 segmentation scan loop (the engine's run
segmentation is not in the repository; only the notebooks that trigger it
are).  `dt` is the nominal sample interval, `tol` the continuity tolerance
in sample-interval multiples.  The loop carries the previous record's
timestamp, the open run's start time, and the open run's record range; a
gap beyond `dt + tol*dt` closes the current run (end = previous record's
timestamp) and opens a new one at the current record.  A non-positive
difference (duplicate timestamps) is a zero gap and never splits. -/
def segment_runs_aux (dt tol prev runStart : Int) (runFirst runCount : Nat) :
    List Int → List RunDescriptor
  | [] => [⟨runStart, prev, runFirst, runCount⟩]
  | t :: rest =>
      if t - prev - dt > tol * dt then
        ⟨runStart, prev, runFirst, runCount⟩ ::
          segment_runs_aux dt tol t t (runFirst + runCount) 1 rest
      else
        segment_runs_aux dt tol t runStart runFirst (runCount + 1) rest

/-- Modelled from the spec: §4.4 run segmentation entry point.  An empty
input yields zero runs (not an error); otherwise the first record opens
the first run. -/
def segment_runs (dt tol : Int) : List Int → List RunDescriptor
  | [] => []
  | t :: rest => segment_runs_aux dt tol t t 0 1 rest

/-- The record ranges of a run list are chained starting at index `i`:
each run is nonempty and the next run starts exactly where the previous
one ended, so the ranges are non-overlapping and gap-free. -/
def chainedFrom (i : Nat) : List RunDescriptor → Bool
  | [] => true
  | r :: rs => r.firstIdx == i && decide (0 < r.count) && chainedFrom (i + r.count) rs

/-- Total number of records covered by a list of run descriptors. -/
def runs_total (rs : List RunDescriptor) : Nat :=
  rs.foldr (fun r acc => r.count + acc) 0

/-! ## Option-valued minimum / maximum folds

Helpers for the metadata consistency computations: the minimum (maximum)
of a list of integers as an `Option`, `none` for the empty list. -/

/-- Minimum of two optional values (`none` = absent). -/
def optMin : Option Int → Option Int → Option Int
  | none, b => b
  | some a, none => some a
  | some a, some b => some (min a b)

/-- Maximum of two optional values (`none` = absent). -/
def optMax : Option Int → Option Int → Option Int
  | none, b => b
  | some a, none => some a
  | some a, some b => some (max a b)

/-- Minimum of a list of integers, `none` when the list is empty. -/
def minOpt (l : List Int) : Option Int :=
  l.foldr (fun x acc => optMin (some x) acc) none

/-- Maximum of a list of integers, `none` when the list is empty. -/
def maxOpt (l : List Int) : Option Int :=
  l.foldr (fun x acc => optMax (some x) acc) none

/-! ## Data model (§3): Survey → Station → Run → Channel -/

/-- Modelled from the spec: §3 container schema version, enumerated as
legacy single-survey (file version 0.1.0) or current multi-survey. -/
inductive SchemaVersion
  | legacy
  | current
deriving DecidableEq

/-- Modelled from the spec: §7 error taxonomy. -/
inductive MTH5Error
  | NotFound
  | DuplicateId
  | InvalidVersion
  | MetadataValidationError
  | InconsistentHierarchy
  | CorruptFormat
  | AlreadyExists
  | IoError
deriving DecidableEq

/-- Modelled from the spec: §3 Channel metadata (component type, units,
sample rate, start time, end time, sample count); every field may be
missing (`none`), which §4.3 requires the summary index to tolerate. -/
structure ChannelMeta where
  component : Option String
  start : Option Int
  stop : Option Int
  sample_rate : Option Int
  n_samples : Option Nat
  units : Option String
deriving DecidableEq

/-- Modelled from the spec: §3 Channel, the leaf entity: a unique string
id within its Run plus a metadata object. -/
structure Channel where
  id : String
  meta : ChannelMeta
deriving DecidableEq

/-- Modelled from the spec: §3 Run metadata (start/end timestamps, sample
rate, channel type list). -/
structure RunMeta where
  start : Option Int
  stop : Option Int
  sample_rate : Option Int
  channels : List String
deriving DecidableEq

/-- Modelled from the spec: §3 Run, a unique string id within its Station
owning its Channels. -/
structure Run where
  id : String
  meta : RunMeta
  channels : List Channel
deriving DecidableEq

/-- Modelled from the spec: §3 Station metadata (time range and channel
inventory summary). -/
structure StationMeta where
  start : Option Int
  stop : Option Int
  channels_recorded : List String
deriving DecidableEq

/-- Modelled from the spec: §3 Station, a unique string id within its
Survey owning its Runs. -/
structure Station where
  id : String
  meta : StationMeta
  runs : List Run
deriving DecidableEq

/-- Modelled from the spec: §3 and §6 Survey metadata (id, name, network
code, operator, temporal bounds). -/
structure SurveyMeta where
  id : String
  name : Option String
  network : Option String
  acquired_by : Option String
  start : Option Int
  stop : Option Int
deriving DecidableEq

/-- Modelled from the spec: §3 Survey, a unique string id within the
container owning its Stations. -/
structure Survey where
  id : String
  meta : SurveyMeta
  stations : List Station
deriving DecidableEq

/-- Modelled from the spec: §3 one row of the Channel Summary Index,
columns = {survey id, station id, run id, channel id, component type,
start, end, sample rate, n samples, measurement units}; a missing
metadata field is recorded as the sentinel `none`. -/
structure SummaryRow where
  survey : String
  station : String
  run : String
  channel : String
  component : Option String
  start : Option Int
  stop : Option Int
  sample_rate : Option Int
  n_samples : Option Nat
  units : Option String
deriving DecidableEq

/-- Modelled from the spec: §3 the root container: fixed schema version,
the surveys, and the derived (non-authoritative) channel summary table. -/
structure MTH5 where
  version : SchemaVersion
  surveys : List Survey
  channelSummary : List SummaryRow
deriving DecidableEq

/-! ## Schema version gate (§4.5) and group-node operations (§4.2) -/

/-- Modelled from the spec: §4.5 the pure schema version gate for adding
a Survey, consulted before every Survey-level structural mutation: under
the legacy version at most one Survey may exist, under the current
version any number. -/
def is_legal_shape (v : SchemaVersion) (nSurveys : Nat) : Bool :=
  match v with
  | .legacy => nSurveys == 0
  | .current => true

/-- Modelled from the spec: §4.2 `get_child` at container level — fetch a
Survey by id, `NotFound` if absent. -/
def get_survey (m : MTH5) (sid : String) : Except MTH5Error Survey :=
  match m.surveys.find? (fun s => s.id == sid) with
  | some s => .ok s
  | none => .error .NotFound

/-- Modelled from the spec: §4.2 `add_survey`: consult the schema version
gate (`InvalidVersion` on violation), reject sibling id collisions
(`DuplicateId`), otherwise append a fresh Survey carrying the given
metadata and return it together with the updated container.  On error
the container is returned unchanged. -/
def add_survey (m : MTH5) (sid : String) (md : SurveyMeta) :
    Except MTH5Error Survey × MTH5 :=
  if is_legal_shape m.version m.surveys.length then
    if m.surveys.any (fun s => s.id == sid) then
      (.error .DuplicateId, m)
    else
      let s : Survey := { id := sid, meta := md, stations := [] }
      (.ok s, { m with surveys := m.surveys ++ [s] })
  else
    (.error .InvalidVersion, m)

/-- Modelled from the spec: §4.2 `get_child` at Survey level. -/
def get_station (sv : Survey) (stId : String) : Except MTH5Error Station :=
  match sv.stations.find? (fun st => st.id == stId) with
  | some st => .ok st
  | none => .error .NotFound

/-- Modelled from the spec: §4.2 `add_station` (notebook:
`survey_group.stations_group.add_station`): reject sibling id collisions,
otherwise append a fresh Station and return it with the updated Survey. -/
def add_station (sv : Survey) (stId : String) (md : StationMeta) :
    Except MTH5Error Station × Survey :=
  if sv.stations.any (fun st => st.id == stId) then
    (.error .DuplicateId, sv)
  else
    let st : Station := { id := stId, meta := md, runs := [] }
    (.ok st, { sv with stations := sv.stations ++ [st] })

/-- Modelled from the spec: §4.2 `get_child` at Station level. -/
def get_run (st : Station) (rId : String) : Except MTH5Error Run :=
  match st.runs.find? (fun r => r.id == rId) with
  | some r => .ok r
  | none => .error .NotFound

/-- Modelled from the spec: §4.2 `add_run` (notebook:
`station_group.add_run`): reject sibling id collisions, otherwise append
a fresh Run and return it with the updated Station. -/
def add_run (st : Station) (rId : String) (md : RunMeta) :
    Except MTH5Error Run × Station :=
  if st.runs.any (fun r => r.id == rId) then
    (.error .DuplicateId, st)
  else
    let r : Run := { id := rId, meta := md, channels := [] }
    (.ok r, { st with runs := st.runs ++ [r] })

/-- Modelled from the spec: §4.2 `remove_child` at Survey level —
cascading delete of a Station and all its descendant Runs and Channels
(the subtree is owned, so dropping the Station drops everything below),
`NotFound` if absent. -/
def remove_station (sv : Survey) (stId : String) : Except MTH5Error Unit × Survey :=
  if sv.stations.any (fun st => st.id == stId) then
    (.ok (), { sv with stations := sv.stations.filter (fun st => st.id != stId) })
  else
    (.error .NotFound, sv)

/-- Modelled from the spec: §4.2 container-level station removal — locate
the Survey by id and remove the Station from it, `NotFound` when no
Survey with that id holds a Station with that id. -/
def mth5_remove_station (m : MTH5) (svId stId : String) :
    Except MTH5Error Unit × MTH5 :=
  if m.surveys.any (fun sv => sv.id == svId && sv.stations.any (fun st => st.id == stId)) then
    let surveys2 := m.surveys.map (fun sv => if sv.id == svId then (remove_station sv stId).2 else sv)
    (.ok (), { m with surveys := surveys2 })
  else
    (.error .NotFound, m)

/-! ## Metadata consistency propagation (§4.2) -/

/-- Modelled from the spec: §4.2 `validate_station_metadata`: recompute
the Station's derived fields from its direct Runs' current metadata —
declared start/end become the min-start/max-end across the runs and the
declared channel list becomes the union of the channel types present
across the runs; fails with `InconsistentHierarchy` when a run is missing
a start or end needed for the computation. -/
def validate_station_metadata (st : Station) : Except MTH5Error Station :=
  if st.runs.any (fun r => r.meta.start.isNone || r.meta.stop.isNone) then
    .error .InconsistentHierarchy
  else
    .ok { st with meta :=
      { start := minOpt (st.runs.filterMap (fun r => r.meta.start))
        stop := maxOpt (st.runs.filterMap (fun r => r.meta.stop))
        channels_recorded := st.runs.foldr (fun r acc => r.meta.channels ∪ acc) [] } }

/-- All Channels below a Station (its runs' channels, in order). -/
def station_channels (st : Station) : List Channel :=
  st.runs.flatMap (fun r => r.channels)

/-- All Channels below a Survey (full subtree walk Stations → Runs →
Channels, in order). -/
def survey_channels (sv : Survey) : List Channel :=
  sv.stations.flatMap station_channels

/-- A Station's actual acquisition start: the earliest start among the
channels it transitively owns (not its possibly stale declared start). -/
def station_actual_start (st : Station) : Option Int :=
  minOpt ((station_channels st).filterMap (fun ch => ch.meta.start))

/-- A Station's actual acquisition end: the latest end among the channels
it transitively owns. -/
def station_actual_stop (st : Station) : Option Int :=
  maxOpt ((station_channels st).filterMap (fun ch => ch.meta.stop))

/-- Modelled from the spec: §4.2 `update_survey_metadata`: the Survey's
declared time range is recomputed by walking the full subtree Stations →
Runs → Channels (the only operation permitted to read the full subtree,
because survey aggregates must reflect leaves, not possibly stale
station-level declarations); fails with `InconsistentHierarchy` when a
descendant Channel is missing the start or end needed. -/
def update_survey_metadata (sv : Survey) : Except MTH5Error Survey :=
  if (survey_channels sv).any (fun ch => ch.meta.start.isNone || ch.meta.stop.isNone) then
    .error .InconsistentHierarchy
  else
    .ok { sv with meta :=
      { sv.meta with
        start := minOpt ((survey_channels sv).filterMap (fun ch => ch.meta.start))
        stop := maxOpt ((survey_channels sv).filterMap (fun ch => ch.meta.stop)) } }

/-! ## Channel summary index (§4.3) -/

/-- Modelled from the spec: §4.3 the row emitted for one Channel: the
reference path (survey/station/run/channel ids) plus the channel's
descriptive columns, copying a missing metadata field as the sentinel
`none` rather than failing. -/
def mk_summary_row (svId stId rId : String) (ch : Channel) : SummaryRow :=
  { survey := svId, station := stId, run := rId, channel := ch.id
    component := ch.meta.component, start := ch.meta.start, stop := ch.meta.stop
    sample_rate := ch.meta.sample_rate, n_samples := ch.meta.n_samples
    units := ch.meta.units }

/-- Every Channel reachable from the container root, tagged with its
reference path (survey id, station id, run id). -/
def reachable_channels (m : MTH5) : List (String × String × String × Channel) :=
  m.surveys.flatMap (fun sv =>
    sv.stations.flatMap (fun st =>
      st.runs.flatMap (fun r =>
        r.channels.map (fun ch => (sv.id, st.id, r.id, ch)))))

/-- Number of Channels currently reachable from the container root. -/
def channel_count (m : MTH5) : Nat :=
  (m.surveys.map (fun sv =>
    (sv.stations.map (fun st =>
      (st.runs.map (fun r => r.channels.length)).sum)).sum)).sum

/-- Modelled from the spec: §4.3 `summarize()`: clear prior rows, walk the
full reachable hierarchy once, and emit one row per Channel; a channel
with partially missing metadata still gets its row, with `none` sentinels
in the missing fields. -/
def summarize (m : MTH5) : MTH5 :=
  { m with channelSummary :=
      m.surveys.flatMap (fun sv =>
        sv.stations.flatMap (fun st =>
          st.runs.flatMap (fun r =>
            r.channels.map (fun ch => mk_summary_row sv.id st.id r.id ch)))) }

/-- Modelled from the spec: §4.3 `clear_table()`: reset the index to zero
rows (idempotent). -/
def clear_table (m : MTH5) : MTH5 :=
  { m with channelSummary := [] }

/-- Modelled from the spec: §4.3 `to_dataframe()`-equivalent export: the
current rows as an ordered sequence, no side effect. -/
def to_dataframe (m : MTH5) : List SummaryRow :=
  m.channelSummary

/-! ## Backend persistence and metadata (de)serialization (§4.1, §6) -/

/-- Modelled from the spec: §6 a scalar attribute value stored by the
container backend; `null` records an absent optional field. -/
inductive AttrValue
  | str : String → AttrValue
  | int : Int → AttrValue
  | null : AttrValue
deriving DecidableEq

/-- Encode an optional string attribute. -/
def encodeStr : Option String → AttrValue
  | none => .null
  | some s => .str s

/-- Encode an optional integer attribute. -/
def encodeInt : Option Int → AttrValue
  | none => .null
  | some i => .int i

/-- Decode an optional string attribute; `none` on a missing entry or a
type mismatch. -/
def decodeStr : Option AttrValue → Option (Option String)
  | some (.str s) => some (some s)
  | some .null => some none
  | _ => none

/-- Decode an optional integer attribute; `none` on a missing entry or a
type mismatch. -/
def decodeInt : Option AttrValue → Option (Option Int)
  | some (.int i) => some (some i)
  | some .null => some none
  | _ => none

/-- Modelled from the spec: §6 `to_dict()`-style serialization of a
Survey metadata object to a mapping of field name → scalar value. -/
def SurveyMeta.to_dict (md : SurveyMeta) : List (String × AttrValue) :=
  [("id", .str md.id),
   ("name", encodeStr md.name),
   ("network", encodeStr md.network),
   ("acquired_by", encodeStr md.acquired_by),
   ("start", encodeInt md.start),
   ("stop", encodeInt md.stop)]

/-- Modelled from the spec: §6 `from_dict()`-style deserialization of a
Survey metadata object; `none` when a required field is missing or a
field has the wrong type. -/
def SurveyMeta.from_dict (d : List (String × AttrValue)) : Option SurveyMeta :=
  match d.lookup "id", decodeStr (d.lookup "name"), decodeStr (d.lookup "network"),
        decodeStr (d.lookup "acquired_by"), decodeInt (d.lookup "start"),
        decodeInt (d.lookup "stop") with
  | some (.str i), some nm, some nw, some ab, some st, some sp =>
      some ⟨i, nm, nw, ab, st, sp⟩
  | _, _, _, _, _, _ => none

/-- Modelled from the spec: §4.1 the persisted container file: named
groups, keyed by path-like string names unique among siblings, each
carrying its key/value attribute storage. -/
structure BackendFile where
  groups : List (String × List (String × AttrValue))
deriving DecidableEq

/-- Modelled from the spec: §4.1 an open handle onto a container file. -/
structure MTH5Handle where
  file : BackendFile
  isOpen : Bool
deriving DecidableEq

/-- Modelled from the spec: §4.1 `open()` returns a handle onto the
persisted file. -/
def open_mth5 (f : BackendFile) : MTH5Handle :=
  { file := f, isOpen := true }

/-- Modelled from the spec: §4.1 `close()` flushes and releases the
handle; the persisted file is the handle's current contents. -/
def close_mth5 (h : MTH5Handle) : BackendFile :=
  h.file

/-- Modelled from the spec: §6 attach a Metadata Object to the group at
`path` as its attribute dictionary (names unique among siblings, so any
previous entry for the path is replaced); a no-op on a closed handle. -/
def write_metadata (h : MTH5Handle) (path : String) (md : SurveyMeta) : MTH5Handle :=
  if h.isOpen then
    { file := ⟨(path, md.to_dict) :: h.file.groups.filter (fun g => g.1 != path)⟩
      isOpen := h.isOpen }
  else h

/-- Modelled from the spec: §6 read the Metadata Object attached to the
group at `path` back from the container. -/
def read_metadata (h : MTH5Handle) (path : String) : Option SurveyMeta :=
  match h.file.groups.lookup path with
  | some d => SurveyMeta.from_dict d
  | none => none

/-! ## Concrete sample data (used by the witness theorems) -/

/-- An electric channel spanning [0, 100]. -/
def chEx : Channel :=
  ⟨"ex", ⟨some "electric", some 0, some 100, some 1, some 100, some "mV"⟩⟩

/-- A magnetic channel spanning [0, 100]. -/
def chHy : Channel :=
  ⟨"hy", ⟨some "magnetic", some 0, some 100, some 1, some 100, some "nT"⟩⟩

/-- An electric channel spanning [200, 300]. -/
def chEx2 : Channel :=
  ⟨"ex", ⟨some "electric", some 200, some 300, some 1, some 100, some "mV"⟩⟩

/-- A channel with entirely missing metadata. -/
def chBad : Channel :=
  ⟨"hz", ⟨none, none, none, none, none, none⟩⟩

/-- First sample run, spanning [0, 100]. -/
def runA : Run :=
  ⟨"001", ⟨some 0, some 100, some 1, ["ex", "hy"]⟩, [chEx, chHy]⟩

/-- Second sample run, spanning [200, 300]. -/
def runB : Run :=
  ⟨"002", ⟨some 200, some 300, some 1, ["ex"]⟩, [chEx2]⟩

/-- Sample station holding the two sample runs; its declared metadata is
deliberately stale (empty) until validated. -/
def stA : Station :=
  ⟨"mt001", ⟨none, none, []⟩, [runA, runB]⟩

/-- Sample survey metadata. -/
def svMetaA : SurveyMeta :=
  ⟨"TEST01", some "test", some "MT", some "MT Master", none, none⟩

/-- Sample survey holding the sample station. -/
def svA : Survey :=
  ⟨"TEST01", svMetaA, [stA]⟩

/-- Sample legacy container holding one survey. -/
def mA : MTH5 :=
  ⟨.legacy, [svA], []⟩

/-- An empty legacy container. -/
def mEmpty : MTH5 :=
  ⟨.legacy, [], []⟩

/-- Run holding a channel with entirely missing metadata. -/
def runBad : Run :=
  ⟨"001", ⟨none, none, none, []⟩, [chEx, chBad]⟩

/-- Station holding the partially bad run. -/
def stBad : Station :=
  ⟨"mt001", ⟨none, none, []⟩, [runBad]⟩

/-- Survey holding the partially bad station. -/
def svBad : Survey :=
  ⟨"TEST01", svMetaA, [stBad]⟩

/-- Container holding a channel with entirely missing metadata. -/
def mBad : MTH5 :=
  ⟨.legacy, [svBad], []⟩

/-! ## Run segmentation theorems -/

theorem segment_runs_aux_spec (dt tol : Int) :
    ∀ (l : List Int) (prev runStart : Int) (runFirst runCount : Nat),
      0 < runCount →
      chainedFrom runFirst (segment_runs_aux dt tol prev runStart runFirst runCount l) = true ∧
      runs_total (segment_runs_aux dt tol prev runStart runFirst runCount l) =
        runCount + l.length := by
  intro l
  induction l with
  | nil =>
      intro prev runStart runFirst runCount hc
      simp [segment_runs_aux, chainedFrom, runs_total, hc]
  | cons t rest ih =>
      intro prev runStart runFirst runCount hc
      by_cases hgap : t - prev - dt > tol * dt
      · have h1 := ih t t (runFirst + runCount) 1 (by norm_num)
        constructor
        · simp [segment_runs_aux, hgap, chainedFrom, hc, h1.1]
        · simp [segment_runs_aux, hgap, runs_total] at h1 ⊢
          omega
      · have h1 := ih t runStart runFirst (runCount + 1) (by omega)
        constructor
        · simpa [segment_runs_aux, hgap] using h1.1
        · have := h1.2
          simp [segment_runs_aux, hgap] at this ⊢
          omega

/-- C1: for every input sequence of N timestamped records, run
segmentation produces a finite, ordered sequence of run descriptors whose
record ranges partition the N records: the ranges are chained from index
0 (each run nonempty, no gap and no overlap between consecutive ranges,
so no record is dropped or duplicated), and the total record count across
the runs equals N. -/
theorem segment_runs_partitions (dt tol : Int) (ts : List Int) :
    chainedFrom 0 (segment_runs dt tol ts) = true ∧
    runs_total (segment_runs dt tol ts) = ts.length := by
  cases ts with
  | nil => simp [segment_runs, chainedFrom, runs_total]
  | cons t rest =>
      have h := segment_runs_aux_spec dt tol rest t t 0 1 (by norm_num)
      constructor
      · simpa [segment_runs] using h.1
      · simp [segment_runs, h.2]
        omega

/-- C8 counterexample: with nominal sample interval 1 and tolerance 0, the
single-record input [5] produces exactly one run, but that run's start
(5) does not equal its end plus one nominal sample interval (5 + 1): the
scan loop closes a run with end = the last record's timestamp, so a
length-1 input yields a run with start = end. -/
theorem segment_runs_length_one_counterexample :
    segment_runs 1 0 [5] = [⟨5, 5, 0, 1⟩] ∧
    ∀ r ∈ segment_runs 1 0 [5], ¬ r.start = r.stop + 1 := by
  decide

/-- C8 (amended): for a nonnegative nominal sample interval, an input of
length 0 produces zero runs (not an error); an input of length 1 produces
exactly one run whose start equals its end (both the single record's
timestamp), covering that one record; and with a tolerance of zero a
duplicate timestamp is a zero gap and does not cause a split. -/
theorem segment_runs_edge_cases (dt tol t : Int) (hdt : 0 ≤ dt) :
    segment_runs dt tol [] = [] ∧
    segment_runs dt tol [t] = [⟨t, t, 0, 1⟩] ∧
    segment_runs dt 0 [t, t] = [⟨t, t, 0, 2⟩] := by
  refine ⟨rfl, rfl, ?_⟩
  have hng : ¬ t - t - dt > 0 * dt := by omega
  simp only [segment_runs, segment_runs_aux, if_neg hng]

/-- Witness for the edge-case theorem at dt = 1, tol = 0, t = 5. -/
theorem segment_runs_edge_cases_witness :
    segment_runs 1 0 [] = [] ∧
    segment_runs 1 0 [5] = [⟨5, 5, 0, 1⟩] ∧
    segment_runs 1 0 [5, 5] = [⟨5, 5, 0, 2⟩] :=
  segment_runs_edge_cases 1 0 5 (by decide)

theorem optMin_assoc (a b c : Option Int) :
    optMin a (optMin b c) = optMin (optMin a b) c := by
  cases a <;> cases b <;> cases c <;> simp [optMin, min_assoc]

theorem optMax_assoc (a b c : Option Int) :
    optMax a (optMax b c) = optMax (optMax a b) c := by
  cases a <;> cases b <;> cases c <;> simp [optMax, max_assoc]

theorem minOpt_append (l₁ l₂ : List Int) :
    minOpt (l₁ ++ l₂) = optMin (minOpt l₁) (minOpt l₂) := by
  induction l₁ with
  | nil => simp [minOpt, optMin]
  | cons x t ih =>
      simp only [minOpt, List.foldr_cons, List.cons_append] at ih ⊢
      rw [ih]
      exact optMin_assoc (some x) _ _

theorem maxOpt_append (l₁ l₂ : List Int) :
    maxOpt (l₁ ++ l₂) = optMax (maxOpt l₁) (maxOpt l₂) := by
  induction l₁ with
  | nil => simp [maxOpt, optMax]
  | cons x t ih =>
      simp only [maxOpt, List.foldr_cons, List.cons_append] at ih ⊢
      rw [ih]
      exact optMax_assoc (some x) _ _

theorem minOpt_mem : ∀ (l : List Int) (b : Int), minOpt l = some b → b ∈ l := by
  intro l
  induction l with
  | nil => intro b h; simp [minOpt] at h
  | cons x t ih =>
      intro b h
      simp only [minOpt, List.foldr_cons] at h
      rcases ht : t.foldr (fun x acc => optMin (some x) acc) none with _ | c
      · rw [ht] at h
        simp [optMin] at h
        simp [h]
      · rw [ht] at h
        simp only [optMin, Option.some.injEq] at h
        rcases le_total x c with hxc | hcx
        · have hbx : b = x := by rw [← h, min_eq_left hxc]
          rw [hbx]
          exact List.mem_cons_self x t
        · have hbc : b = c := by rw [← h, min_eq_right hcx]
          rw [hbc]
          exact List.mem_cons_of_mem x (ih c ht)

theorem minOpt_le : ∀ (l : List Int) (b a : Int), minOpt l = some b → a ∈ l → b ≤ a := by
  intro l
  induction l with
  | nil => intro b a _ ha; simp at ha
  | cons x t ih =>
      intro b a h ha
      simp only [minOpt, List.foldr_cons] at h
      rcases ht : t.foldr (fun x acc => optMin (some x) acc) none with _ | c
      · rw [ht] at h
        simp only [optMin] at h
        have hb : b = x := by cases h; rfl
        rcases List.mem_cons.mp ha with rfl | hat
        · omega
        · exfalso
          have : minOpt t = none := ht
          cases t with
          | nil => simp at hat
          | cons y s => simp [minOpt, List.foldr_cons] at this; cases hfold : s.foldr (fun x acc => optMin (some x) acc) none <;> rw [hfold] at this <;> simp [optMin] at this
      · rw [ht] at h
        simp only [optMin] at h
        have hb : b = min x c := by cases h; rfl
        rcases List.mem_cons.mp ha with rfl | hat
        · omega
        · have := ih c a ht hat
          omega

theorem maxOpt_mem : ∀ (l : List Int) (b : Int), maxOpt l = some b → b ∈ l := by
  intro l
  induction l with
  | nil => intro b h; simp [maxOpt] at h
  | cons x t ih =>
      intro b h
      simp only [maxOpt, List.foldr_cons] at h
      rcases ht : t.foldr (fun x acc => optMax (some x) acc) none with _ | c
      · rw [ht] at h
        simp [optMax] at h
        simp [h]
      · rw [ht] at h
        simp only [optMax, Option.some.injEq] at h
        rcases le_total c x with hcx | hxc
        · have hbx : b = x := by rw [← h, max_eq_left hcx]
          rw [hbx]
          exact List.mem_cons_self x t
        · have hbc : b = c := by rw [← h, max_eq_right hxc]
          rw [hbc]
          exact List.mem_cons_of_mem x (ih c ht)

theorem maxOpt_ge : ∀ (l : List Int) (b a : Int), maxOpt l = some b → a ∈ l → a ≤ b := by
  intro l
  induction l with
  | nil => intro b a _ ha; simp at ha
  | cons x t ih =>
      intro b a h ha
      simp only [maxOpt, List.foldr_cons] at h
      rcases ht : t.foldr (fun x acc => optMax (some x) acc) none with _ | c
      · rw [ht] at h
        simp only [optMax] at h
        have hb : b = x := by cases h; rfl
        rcases List.mem_cons.mp ha with rfl | hat
        · omega
        · exfalso
          cases t with
          | nil => simp at hat
          | cons y s => simp [List.foldr_cons] at ht; cases hfold : s.foldr (fun x acc => optMax (some x) acc) none <;> rw [hfold] at ht <;> simp [optMax] at ht
      · rw [ht] at h
        simp only [optMax] at h
        have hb : b = max x c := by cases h; rfl
        rcases List.mem_cons.mp ha with rfl | hat
        · omega
        · have := ih c a ht hat
          omega

theorem minOpt_isSome (l : List Int) (h : l ≠ []) : ∃ b, minOpt l = some b := by
  cases l with
  | nil => exact absurd rfl h
  | cons x t =>
      simp only [minOpt, List.foldr_cons]
      cases ht : t.foldr (fun x acc => optMin (some x) acc) none with
      | none => exact ⟨x, rfl⟩
      | some c => exact ⟨min x c, rfl⟩

theorem maxOpt_isSome (l : List Int) (h : l ≠ []) : ∃ b, maxOpt l = some b := by
  cases l with
  | nil => exact absurd rfl h
  | cons x t =>
      simp only [maxOpt, List.foldr_cons]
      cases ht : t.foldr (fun x acc => optMax (some x) acc) none with
      | none => exact ⟨x, rfl⟩
      | some c => exact ⟨max x c, rfl⟩

/-! ## Group-node and schema-gate theorems -/

theorem find_append_last {α : Type} (p : α → Bool) (l : List α) (x : α)
    (hl : l.any p = false) (hx : p x = true) :
    (l ++ [x]).find? p = some x := by
  induction l with
  | nil => simp [List.find?, hx]
  | cons a t ih =>
      simp only [List.any_cons, Bool.or_eq_false_iff] at hl
      simp [List.find?_cons, hl.1, ih hl.2]

/-- C2: for a container under the legacy schema version that already holds
a Survey, any `add_survey` call fails with `InvalidVersion`; the container
is returned unchanged, the first Survey is still queryable by id, and the
at-most-one-Survey invariant is preserved by `add_survey` from any legacy
state. -/
theorem legacy_single_survey (m : MTH5) (sid : String) (md : SurveyMeta)
    (hv : m.version = SchemaVersion.legacy) (hne : m.surveys ≠ []) :
    (add_survey m sid md).1 = .error .InvalidVersion ∧
    (add_survey m sid md).2 = m ∧
    (∀ s0 rest, m.surveys = s0 :: rest →
      get_survey (add_survey m sid md).2 s0.id = .ok s0) ∧
    (∀ m0 : MTH5, m0.version = SchemaVersion.legacy → m0.surveys.length ≤ 1 →
      (add_survey m0 sid md).2.surveys.length ≤ 1) := by
  have hlen : m.surveys.length ≠ 0 := by
    simpa [List.length_eq_zero] using hne
  have hfalse : is_legal_shape m.version m.surveys.length = false := by
    rw [hv]
    simpa [is_legal_shape] using hlen
  have heq : (add_survey m sid md).2 = m := by
    simp [add_survey, hfalse]
  refine ⟨?_, heq, ?_, ?_⟩
  · simp [add_survey, hfalse]
  · intro s0 rest hsr
    rw [heq]
    simp [get_survey, hsr, List.find?_cons]
  · intro m0 hv0 hlen0
    by_cases h0 : m0.surveys = []
    · simp [add_survey, is_legal_shape, hv0, h0]
    · have hlen0' : m0.surveys.length ≠ 0 := by
        simpa [List.length_eq_zero] using h0
      have hf0 : is_legal_shape m0.version m0.surveys.length = false := by
        rw [hv0]
        simpa [is_legal_shape] using hlen0'
      simpa [add_survey, hf0] using hlen0

/-- Witness for C2 on the concrete legacy container `mA` that already
holds survey "TEST01". -/
theorem legacy_single_survey_witness :
    (add_survey mA "TEST02" svMetaA).1 = .error .InvalidVersion ∧
    (add_survey mA "TEST02" svMetaA).2 = mA ∧
    (∀ s0 rest, mA.surveys = s0 :: rest →
      get_survey (add_survey mA "TEST02" svMetaA).2 s0.id = .ok s0) ∧
    (∀ m0 : MTH5, m0.version = SchemaVersion.legacy → m0.surveys.length ≤ 1 →
      (add_survey m0 "TEST02" svMetaA).2.surveys.length ≤ 1) :=
  legacy_single_survey mA "TEST02" svMetaA rfl (by simp [mA])

/-- C10: each successful add_child operation (`add_survey`, `add_station`,
`add_run`) returns the newly created child group node: the returned node
carries the requested id and metadata, starts with no children, and is
exactly the node `get_child` fetches from the updated parent by that id —
so it is immediately usable for further child additions and metadata
operations without a separate get_child call. -/
theorem add_child_returns_new_node
    (m : MTH5) (sv : Survey) (st : Station)
    (sid stId rId : String) (smd : SurveyMeta) (stmd : StationMeta) (rmd : RunMeta)
    (s : Survey) (m' : MTH5) (t : Station) (sv' : Survey) (r : Run) (st' : Station)
    (h1 : add_survey m sid smd = (.ok s, m'))
    (h2 : add_station sv stId stmd = (.ok t, sv'))
    (h3 : add_run st rId rmd = (.ok r, st')) :
    (s.id = sid ∧ s.meta = smd ∧ s.stations = [] ∧ get_survey m' sid = .ok s) ∧
    (t.id = stId ∧ t.meta = stmd ∧ t.runs = [] ∧ get_station sv' stId = .ok t) ∧
    (r.id = rId ∧ r.meta = rmd ∧ r.channels = [] ∧ get_run st' rId = .ok r) := by
  refine ⟨?_, ?_, ?_⟩
  · cases hleg : is_legal_shape m.version m.surveys.length with
    | false => simp [add_survey, hleg] at h1
    | true =>
        cases hdup : m.surveys.any (fun x => x.id == sid) with
        | true => simp [add_survey, hleg, hdup] at h1
        | false =>
            rw [add_survey, hleg, hdup] at h1
            simp only [if_true, if_false, Bool.false_eq_true, Prod.mk.injEq] at h1
            obtain ⟨hs, hm⟩ := h1
            have hs' : s = { id := sid, meta := smd, stations := [] } := by
              cases hs
              rfl
            subst hs'
            subst hm
            refine ⟨rfl, rfl, rfl, ?_⟩
            rw [get_survey]
            rw [find_append_last _ _ _ hdup (by simp)]
  · cases hdup : sv.stations.any (fun x => x.id == stId) with
    | true => simp [add_station, hdup] at h2
    | false =>
        rw [add_station, hdup] at h2
        simp only [if_false, Bool.false_eq_true, Prod.mk.injEq] at h2
        obtain ⟨hs, hm⟩ := h2
        have hs' : t = { id := stId, meta := stmd, runs := [] } := by
          cases hs
          rfl
        subst hs'
        subst hm
        refine ⟨rfl, rfl, rfl, ?_⟩
        rw [get_station]
        rw [find_append_last _ _ _ hdup (by simp)]
  · cases hdup : st.runs.any (fun x => x.id == rId) with
    | true => simp [add_run, hdup] at h3
    | false =>
        rw [add_run, hdup] at h3
        simp only [if_false, Bool.false_eq_true, Prod.mk.injEq] at h3
        obtain ⟨hs, hm⟩ := h3
        have hs' : r = { id := rId, meta := rmd, channels := [] } := by
          cases hs
          rfl
        subst hs'
        subst hm
        refine ⟨rfl, rfl, rfl, ?_⟩
        rw [get_run]
        rw [find_append_last _ _ _ hdup (by simp)]

/-- Witness for C10 on concrete successful additions: a survey added to
the empty legacy container, a station added to `svA`, a run added to
`stA`. -/
theorem add_child_returns_new_node_witness :
    ((⟨"TEST01", svMetaA, []⟩ : Survey).id = "TEST01" ∧
      (⟨"TEST01", svMetaA, []⟩ : Survey).meta = svMetaA ∧
      (⟨"TEST01", svMetaA, []⟩ : Survey).stations = [] ∧
      get_survey ⟨.legacy, [⟨"TEST01", svMetaA, []⟩], []⟩ "TEST01" =
        .ok ⟨"TEST01", svMetaA, []⟩) ∧
    ((⟨"mt002", ⟨none, none, []⟩, []⟩ : Station).id = "mt002" ∧
      (⟨"mt002", ⟨none, none, []⟩, []⟩ : Station).meta = ⟨none, none, []⟩ ∧
      (⟨"mt002", ⟨none, none, []⟩, []⟩ : Station).runs = [] ∧
      get_station ⟨"TEST01", svMetaA, [stA, ⟨"mt002", ⟨none, none, []⟩, []⟩]⟩ "mt002" =
        .ok ⟨"mt002", ⟨none, none, []⟩, []⟩) ∧
    ((⟨"003", ⟨some 400, some 500, some 1, ["ex"]⟩, []⟩ : Run).id = "003" ∧
      (⟨"003", ⟨some 400, some 500, some 1, ["ex"]⟩, []⟩ : Run).meta =
        ⟨some 400, some 500, some 1, ["ex"]⟩ ∧
      (⟨"003", ⟨some 400, some 500, some 1, ["ex"]⟩, []⟩ : Run).channels = [] ∧
      get_run ⟨"mt001", ⟨none, none, []⟩, [runA, runB, ⟨"003", ⟨some 400, some 500, some 1, ["ex"]⟩, []⟩]⟩ "003" =
        .ok ⟨"003", ⟨some 400, some 500, some 1, ["ex"]⟩, []⟩) :=
  add_child_returns_new_node mEmpty svA stA "TEST01" "mt002" "003" svMetaA
    ⟨none, none, []⟩ ⟨some 400, some 500, some 1, ["ex"]⟩
    _ _ _ _ _ _ rfl rfl rfl

/-! ## Channel summary index theorems -/

theorem summarize_rows_eq (m : MTH5) :
    (summarize m).channelSummary =
      (reachable_channels m).map (fun q => mk_summary_row q.1 q.2.1 q.2.2.1 q.2.2.2) := by
  simp [summarize, reachable_channels, List.map_flatMap, List.map_map, Function.comp_def]

theorem summarize_rows_length (m : MTH5) :
    (summarize m).channelSummary.length = channel_count m := by
  simp [summarize, channel_count, List.length_flatMap, List.map_map, Function.comp_def]

/-- C6: `summarize()` is idempotent: with no structural change in
between, a second `summarize()` produces exactly the same row list (hence
the same row count and the same row values in the same order, which is
order-independent equality a fortiori); the notebook's
`clear_table()`-then-`summarize()` sequence produces the same rows as
`summarize()` alone, because the index is a recomputable projection of
the hierarchy and rebuilding it never changes the hierarchy. -/
theorem summarize_idempotent (m : MTH5) :
    (summarize (summarize m)).channelSummary = (summarize m).channelSummary ∧
    (summarize (summarize m)).channelSummary.length = (summarize m).channelSummary.length ∧
    (summarize (clear_table m)).channelSummary = (summarize m).channelSummary ∧
    to_dataframe (summarize (summarize m)) = to_dataframe (summarize m) :=
  ⟨rfl, rfl, rfl, rfl⟩

/-- C7: `summarize()` never fails the whole scan because of a Channel
with partially missing metadata: the row count always equals the number
of reachable Channels (so no channel — bad or good — is skipped), every
reachable channel's row is in the table, and the row emitted for a
channel copies each metadata field verbatim, so a missing field appears
as the empty sentinel `none` instead of aborting the row. -/
theorem summarize_tolerates_missing_metadata (m : MTH5) :
    (summarize m).channelSummary.length = channel_count m ∧
    (∀ q ∈ reachable_channels m,
      mk_summary_row q.1 q.2.1 q.2.2.1 q.2.2.2 ∈ (summarize m).channelSummary) ∧
    (∀ svId stId rId : String, ∀ ch : Channel,
      (mk_summary_row svId stId rId ch).channel = ch.id ∧
      (mk_summary_row svId stId rId ch).component = ch.meta.component ∧
      (mk_summary_row svId stId rId ch).start = ch.meta.start ∧
      (mk_summary_row svId stId rId ch).stop = ch.meta.stop ∧
      (mk_summary_row svId stId rId ch).sample_rate = ch.meta.sample_rate ∧
      (mk_summary_row svId stId rId ch).n_samples = ch.meta.n_samples ∧
      (mk_summary_row svId stId rId ch).units = ch.meta.units) := by
  refine ⟨summarize_rows_length m, ?_, ?_⟩
  · intro q hq
    rw [summarize_rows_eq]
    exact List.mem_map_of_mem _ hq
  · intro svId stId rId ch
    exact ⟨rfl, rfl, rfl, rfl, rfl, rfl, rfl⟩

/-- Witness for C7 on the concrete container `mBad`, whose channel `chBad`
has no metadata at all: the scan still emits both rows (count 2) and the
bad channel's row is present with `none` sentinels. -/
theorem summarize_tolerates_missing_metadata_witness :
    (summarize mBad).channelSummary.length = channel_count mBad ∧
    mk_summary_row "TEST01" "mt001" "001" chBad ∈ (summarize mBad).channelSummary :=
  ⟨(summarize_tolerates_missing_metadata mBad).1,
   (summarize_tolerates_missing_metadata mBad).2.1 ("TEST01", "mt001", "001", chBad)
     (by decide)⟩

/-- C5: after `summarize()` the index contains exactly one row per
Channel currently reachable from the container root (the row list is the
row constructor mapped over the reachable channels, so a removed Channel
has zero rows); in particular, after removing a Station and re-running
`summarize()`, no row references the removed Station's former channels
(no remaining row carries that survey id and station id). -/
theorem summarize_after_remove_station (m : MTH5) (svId stId : String)
    (h : (mth5_remove_station m svId stId).1 = .ok ()) :
    (summarize m).channelSummary =
      (reachable_channels m).map (fun q => mk_summary_row q.1 q.2.1 q.2.2.1 q.2.2.2) ∧
    (summarize (mth5_remove_station m svId stId).2).channelSummary =
      (reachable_channels (mth5_remove_station m svId stId).2).map
        (fun q => mk_summary_row q.1 q.2.1 q.2.2.1 q.2.2.2) ∧
    ∀ row ∈ (summarize (mth5_remove_station m svId stId).2).channelSummary,
      ¬ (row.survey = svId ∧ row.station = stId) := by
  refine ⟨summarize_rows_eq m, summarize_rows_eq _, ?_⟩
  intro row hrow hcontra
  obtain ⟨hsv, hst⟩ := hcontra
  have hc : m.surveys.any
      (fun sv0 => sv0.id == svId && sv0.stations.any (fun st0 => st0.id == stId)) = true := by
    by_contra hneg
    rw [mth5_remove_station] at h
    simp only [Bool.not_eq_true] at hneg
    rw [if_neg (by simp [hneg])] at h
    exact Except.noConfusion h
  have hm' : (mth5_remove_station m svId stId).2.surveys =
      m.surveys.map (fun sv0 => if sv0.id == svId then (remove_station sv0 stId).2 else sv0) := by
    rw [mth5_remove_station, if_pos hc]
  rw [summarize_rows_eq] at hrow
  obtain ⟨q, hq, hrq⟩ := List.mem_map.mp hrow
  rw [reachable_channels, hm'] at hq
  obtain ⟨sv, hsvmem, hq2⟩ := List.mem_flatMap.mp hq
  obtain ⟨st, hstmem, hq3⟩ := List.mem_flatMap.mp hq2
  obtain ⟨r, hrmem, hq4⟩ := List.mem_flatMap.mp hq3
  obtain ⟨ch, hchmem, hq5⟩ := List.mem_map.mp hq4
  subst hq5
  have hrSv : sv.id = svId := by
    rw [← hrq] at hsv
    simpa [mk_summary_row] using hsv
  have hrSt : st.id = stId := by
    rw [← hrq] at hst
    simpa [mk_summary_row] using hst
  simp only [List.mem_map] at hsvmem
  obtain ⟨sv0, hsv0, hf⟩ := hsvmem
  cases hbeq : sv0.id == svId with
  | false =>
      rw [if_neg (by simp [hbeq])] at hf
      subst hf
      rw [hrSv] at hbeq
      simp at hbeq
  | true =>
      rw [if_pos (by simp [hbeq])] at hf
      cases hany : sv0.stations.any (fun st0 => st0.id == stId) with
      | false =>
          rw [remove_station, if_neg (by simp [hany])] at hf
          subst hf
          have : sv0.stations.any (fun st0 => st0.id == stId) = true :=
            List.any_eq_true.mpr ⟨st, hstmem, by simp [hrSt]⟩
          rw [hany] at this
          exact Bool.noConfusion this
      | true =>
          rw [remove_station, if_pos (by simp [hany])] at hf
          subst hf
          have := (List.mem_filter.mp hstmem).2
          rw [hrSt] at this
          simp at this

/-- Witness for C5 on the concrete container `mA`: removing station
"mt001" from survey "TEST01" succeeds, and the rebuilt index has no row
for the removed station. -/
theorem summarize_after_remove_station_witness :
    (summarize mA).channelSummary =
      (reachable_channels mA).map (fun q => mk_summary_row q.1 q.2.1 q.2.2.1 q.2.2.2) ∧
    (summarize (mth5_remove_station mA "TEST01" "mt001").2).channelSummary =
      (reachable_channels (mth5_remove_station mA "TEST01" "mt001").2).map
        (fun q => mk_summary_row q.1 q.2.1 q.2.2.1 q.2.2.2) ∧
    ∀ row ∈ (summarize (mth5_remove_station mA "TEST01" "mt001").2).channelSummary,
      ¬ (row.survey = "TEST01" ∧ row.station = "mt001") :=
  summarize_after_remove_station mA "TEST01" "mt001" rfl

/-! ## Metadata consistency theorems -/

theorem minOpt_char {α : Type} (f : α → Option Int) (l : List α)
    (hall : ∀ x ∈ l, (f x).isSome) (hne : l ≠ []) :
    ∃ b, minOpt (l.filterMap f) = some b ∧ (∃ x ∈ l, f x = some b) ∧
      ∀ x ∈ l, ∃ a, f x = some a ∧ b ≤ a := by
  have hsne : l.filterMap f ≠ [] := by
    cases hl : l with
    | nil => exact absurd hl hne
    | cons x t =>
        have hx : x ∈ l := by rw [hl]; exact List.mem_cons_self x t
        obtain ⟨a, ha⟩ := Option.isSome_iff_exists.mp (hall x hx)
        intro hempty
        have hmem : a ∈ l.filterMap f := List.mem_filterMap.mpr ⟨x, hx, ha⟩
        rw [hl, hempty] at hmem
        simp at hmem
  obtain ⟨b, hb⟩ := minOpt_isSome _ hsne
  refine ⟨b, hb, ?_, ?_⟩
  · obtain ⟨x, hx, hfx⟩ := List.mem_filterMap.mp (minOpt_mem _ _ hb)
    exact ⟨x, hx, hfx⟩
  · intro x hx
    obtain ⟨a, ha⟩ := Option.isSome_iff_exists.mp (hall x hx)
    exact ⟨a, ha, minOpt_le _ _ _ hb (List.mem_filterMap.mpr ⟨x, hx, ha⟩)⟩

theorem maxOpt_char {α : Type} (f : α → Option Int) (l : List α)
    (hall : ∀ x ∈ l, (f x).isSome) (hne : l ≠ []) :
    ∃ b, maxOpt (l.filterMap f) = some b ∧ (∃ x ∈ l, f x = some b) ∧
      ∀ x ∈ l, ∃ a, f x = some a ∧ a ≤ b := by
  have hsne : l.filterMap f ≠ [] := by
    cases hl : l with
    | nil => exact absurd hl hne
    | cons x t =>
        have hx : x ∈ l := by rw [hl]; exact List.mem_cons_self x t
        obtain ⟨a, ha⟩ := Option.isSome_iff_exists.mp (hall x hx)
        intro hempty
        have hmem : a ∈ l.filterMap f := List.mem_filterMap.mpr ⟨x, hx, ha⟩
        rw [hl, hempty] at hmem
        simp at hmem
  obtain ⟨b, hb⟩ := maxOpt_isSome _ hsne
  refine ⟨b, hb, ?_, ?_⟩
  · obtain ⟨x, hx, hfx⟩ := List.mem_filterMap.mp (maxOpt_mem _ _ hb)
    exact ⟨x, hx, hfx⟩
  · intro x hx
    obtain ⟨a, ha⟩ := Option.isSome_iff_exists.mp (hall x hx)
    exact ⟨a, ha, maxOpt_ge _ _ _ hb (List.mem_filterMap.mpr ⟨x, hx, ha⟩)⟩

theorem mem_foldr_union (c : String) (l : List Run) :
    c ∈ l.foldr (fun r acc => r.meta.channels ∪ acc) [] ↔
      ∃ r ∈ l, c ∈ r.meta.channels := by
  induction l with
  | nil => simp
  | cons r t ih => simp [List.mem_union_iff, ih]

/-- C4: after `validate_station_metadata` succeeds, the station's
declared start (end) is the minimum start (maximum end) over its direct
Runs' declared metadata — it is attained by some run and bounds every
run — and its declared channel list holds exactly the union of the
channel types declared across its runs. -/
theorem validate_station_metadata_spec (st st' : Station)
    (h : validate_station_metadata st = .ok st') :
    (st.runs ≠ [] →
      ∃ b, st'.meta.start = some b ∧ (∃ r ∈ st.runs, r.meta.start = some b) ∧
        ∀ r ∈ st.runs, ∃ a, r.meta.start = some a ∧ b ≤ a) ∧
    (st.runs ≠ [] →
      ∃ b, st'.meta.stop = some b ∧ (∃ r ∈ st.runs, r.meta.stop = some b) ∧
        ∀ r ∈ st.runs, ∃ a, r.meta.stop = some a ∧ a ≤ b) ∧
    (∀ c, c ∈ st'.meta.channels_recorded ↔ ∃ r ∈ st.runs, c ∈ r.meta.channels) := by
  have hcond : st.runs.any (fun r => r.meta.start.isNone || r.meta.stop.isNone) = false := by
    by_contra hneg
    rw [validate_station_metadata] at h
    simp only [Bool.not_eq_false] at hneg
    rw [if_pos hneg] at h
    exact Except.noConfusion h
  have hall : ∀ r ∈ st.runs, r.meta.start.isSome ∧ r.meta.stop.isSome := by
    intro r hr
    have := List.any_eq_false.mp hcond r hr
    simp only [Bool.or_eq_true, not_or, Bool.not_eq_true, Option.isNone_eq_false_iff] at this
    exact this
  have hst' : st'.meta.start = minOpt (st.runs.filterMap (fun r => r.meta.start)) ∧
      st'.meta.stop = maxOpt (st.runs.filterMap (fun r => r.meta.stop)) ∧
      st'.meta.channels_recorded = st.runs.foldr (fun r acc => r.meta.channels ∪ acc) [] := by
    rw [validate_station_metadata, if_neg (by simp [hcond])] at h
    injection h with h2
    rw [← h2]
    exact ⟨rfl, rfl, rfl⟩
  refine ⟨?_, ?_, ?_⟩
  · intro hne
    obtain ⟨b, hb, hatt, hbnd⟩ := minOpt_char (fun r => r.meta.start) st.runs
      (fun r hr => (hall r hr).1) hne
    exact ⟨b, hst'.1 ▸ hb, hatt, hbnd⟩
  · intro hne
    obtain ⟨b, hb, hatt, hbnd⟩ := maxOpt_char (fun r => r.meta.stop) st.runs
      (fun r hr => (hall r hr).2) hne
    exact ⟨b, hst'.2.1 ▸ hb, hatt, hbnd⟩
  · intro c
    rw [hst'.2.2]
    exact mem_foldr_union c st.runs

/-- Witness for C4 on the concrete station `stA` with runs [0,100] and
[200,300]: validation succeeds with declared range [0, 300] and channel
list {"hy", "ex"}. -/
theorem validate_station_metadata_spec_witness :
    (stA.runs ≠ [] →
      ∃ b, (⟨"mt001", ⟨some 0, some 300, ["hy", "ex"]⟩, [runA, runB]⟩ : Station).meta.start
          = some b ∧
        (∃ r ∈ stA.runs, r.meta.start = some b) ∧
        ∀ r ∈ stA.runs, ∃ a, r.meta.start = some a ∧ b ≤ a) ∧
    (stA.runs ≠ [] →
      ∃ b, (⟨"mt001", ⟨some 0, some 300, ["hy", "ex"]⟩, [runA, runB]⟩ : Station).meta.stop
          = some b ∧
        (∃ r ∈ stA.runs, r.meta.stop = some b) ∧
        ∀ r ∈ stA.runs, ∃ a, r.meta.stop = some a ∧ a ≤ b) ∧
    (∀ c, c ∈ (⟨"mt001", ⟨some 0, some 300, ["hy", "ex"]⟩, [runA, runB]⟩ :
        Station).meta.channels_recorded ↔ ∃ r ∈ stA.runs, c ∈ r.meta.channels) :=
  validate_station_metadata_spec stA ⟨"mt001", ⟨some 0, some 300, ["hy", "ex"]⟩, [runA, runB]⟩ rfl

theorem minOpt_filterMap_flatMap {α β : Type} (f : α → List β) (g : β → Option Int)
    (l : List α) :
    minOpt ((l.flatMap f).filterMap g) =
      l.foldr (fun x acc => optMin (minOpt ((f x).filterMap g)) acc) none := by
  induction l with
  | nil => simp [minOpt]
  | cons x t ih =>
      simp only [List.flatMap_cons, List.filterMap_append, minOpt_append, ih, List.foldr_cons]

theorem maxOpt_filterMap_flatMap {α β : Type} (f : α → List β) (g : β → Option Int)
    (l : List α) :
    maxOpt ((l.flatMap f).filterMap g) =
      l.foldr (fun x acc => optMax (maxOpt ((f x).filterMap g)) acc) none := by
  induction l with
  | nil => simp [maxOpt]
  | cons x t ih =>
      simp only [List.flatMap_cons, List.filterMap_append, maxOpt_append, ih, List.foldr_cons]

/-- C3: after `update_survey_metadata` succeeds, the survey's declared
time range equals the union over all descendant Channels' start/end,
computed by walking the full subtree Stations → Runs → Channels: the
declared start (end) is attained by a descendant channel and bounds every
descendant channel, and it equals the fold of the stations' actual
(channel-derived) time ranges — the union of its stations' time ranges. -/
theorem update_survey_metadata_spec (sv sv' : Survey)
    (h : update_survey_metadata sv = .ok sv') :
    (survey_channels sv ≠ [] →
      ∃ b, sv'.meta.start = some b ∧ (∃ ch ∈ survey_channels sv, ch.meta.start = some b) ∧
        ∀ ch ∈ survey_channels sv, ∃ a, ch.meta.start = some a ∧ b ≤ a) ∧
    (survey_channels sv ≠ [] →
      ∃ b, sv'.meta.stop = some b ∧ (∃ ch ∈ survey_channels sv, ch.meta.stop = some b) ∧
        ∀ ch ∈ survey_channels sv, ∃ a, ch.meta.stop = some a ∧ a ≤ b) ∧
    sv'.meta.start =
      sv.stations.foldr (fun st acc => optMin (station_actual_start st) acc) none ∧
    sv'.meta.stop =
      sv.stations.foldr (fun st acc => optMax (station_actual_stop st) acc) none := by
  have hcond : (survey_channels sv).any
      (fun ch => ch.meta.start.isNone || ch.meta.stop.isNone) = false := by
    by_contra hneg
    rw [update_survey_metadata] at h
    simp only [Bool.not_eq_false] at hneg
    rw [if_pos hneg] at h
    exact Except.noConfusion h
  have hall : ∀ ch ∈ survey_channels sv, ch.meta.start.isSome ∧ ch.meta.stop.isSome := by
    intro ch hch
    have := List.any_eq_false.mp hcond ch hch
    simp only [Bool.or_eq_true, not_or, Bool.not_eq_true, Option.isNone_eq_false_iff] at this
    exact this
  have hsv' : sv'.meta.start = minOpt ((survey_channels sv).filterMap (fun ch => ch.meta.start)) ∧
      sv'.meta.stop = maxOpt ((survey_channels sv).filterMap (fun ch => ch.meta.stop)) := by
    rw [update_survey_metadata, if_neg (by simp [hcond])] at h
    injection h with h2
    rw [← h2]
    exact ⟨rfl, rfl⟩
  refine ⟨?_, ?_, ?_, ?_⟩
  · intro hne
    obtain ⟨b, hb, hatt, hbnd⟩ := minOpt_char (fun ch => ch.meta.start) (survey_channels sv)
      (fun ch hch => (hall ch hch).1) hne
    exact ⟨b, hsv'.1 ▸ hb, hatt, hbnd⟩
  · intro hne
    obtain ⟨b, hb, hatt, hbnd⟩ := maxOpt_char (fun ch => ch.meta.stop) (survey_channels sv)
      (fun ch hch => (hall ch hch).2) hne
    exact ⟨b, hsv'.2 ▸ hb, hatt, hbnd⟩
  · rw [hsv'.1, survey_channels, minOpt_filterMap_flatMap]
    rfl
  · rw [hsv'.2, survey_channels, maxOpt_filterMap_flatMap]
    rfl

/-- Witness for C3 on the concrete survey `svA`, whose descendant
channels span [0,100], [0,100] and [200,300]: the recomputed survey range
is [0, 300]. -/
theorem update_survey_metadata_spec_witness :
    (survey_channels svA ≠ [] →
      ∃ b, (⟨"TEST01", ⟨"TEST01", some "test", some "MT", some "MT Master", some 0, some 300⟩,
          [stA]⟩ : Survey).meta.start = some b ∧
        (∃ ch ∈ survey_channels svA, ch.meta.start = some b) ∧
        ∀ ch ∈ survey_channels svA, ∃ a, ch.meta.start = some a ∧ b ≤ a) ∧
    (survey_channels svA ≠ [] →
      ∃ b, (⟨"TEST01", ⟨"TEST01", some "test", some "MT", some "MT Master", some 0, some 300⟩,
          [stA]⟩ : Survey).meta.stop = some b ∧
        (∃ ch ∈ survey_channels svA, ch.meta.stop = some b) ∧
        ∀ ch ∈ survey_channels svA, ∃ a, ch.meta.stop = some a ∧ a ≤ b) ∧
    (⟨"TEST01", ⟨"TEST01", some "test", some "MT", some "MT Master", some 0, some 300⟩,
        [stA]⟩ : Survey).meta.start =
      svA.stations.foldr (fun st acc => optMin (station_actual_start st) acc) none ∧
    (⟨"TEST01", ⟨"TEST01", some "test", some "MT", some "MT Master", some 0, some 300⟩,
        [stA]⟩ : Survey).meta.stop =
      svA.stations.foldr (fun st acc => optMax (station_actual_stop st) acc) none :=
  update_survey_metadata_spec svA
    ⟨"TEST01", ⟨"TEST01", some "test", some "MT", some "MT Master", some 0, some 300⟩, [stA]⟩ rfl

/-! ## Persistence round-trip theorems -/

theorem from_dict_to_dict (md : SurveyMeta) :
    SurveyMeta.from_dict (SurveyMeta.to_dict md) = some md := by
  obtain ⟨i, nm, nw, ab, st, sp⟩ := md
  cases nm <;> cases nw <;> cases ab <;> cases st <;> cases sp <;> rfl

/-- C9: metadata round-trip: writing a Metadata Object to a container,
closing the container, and reading the object back from the freshly
reopened container yields the object, field for field. -/
theorem metadata_roundtrip (f : BackendFile) (path : String) (md : SurveyMeta) :
    read_metadata (open_mth5 (close_mth5 (write_metadata (open_mth5 f) path md))) path =
      some md := by
  rw [read_metadata]
  have hw : (open_mth5 (close_mth5 (write_metadata (open_mth5 f) path md))).file.groups =
      (path, md.to_dict) :: f.groups.filter (fun g => g.1 != path) := by
    rw [write_metadata]
    rfl
  rw [hw]
  simp [List.lookup, from_dict_to_dict]
